import Mathlib

/-!
A verification development for the Game-of-life repository.

The interactive variant (`game_of_life.py`) keeps a `GameOfLife` object:
a dense `height × width` int8 board, a generation counter, a bounded undo
history, and mutators `update`, `toggle_cell`, `clear`, `randomize`, `undo`;
the window layer adds `apply_pattern`, `save_state` and `load_state`.
The threaded variant (`GameOfLife.py`) exposes the pure `game_of_life`
transition with toroidal (wrap) boundary handling.

Boards are embedded as `List (List Int)` in row-major order; numpy slice
reads, slice assignments and negative indices are modelled explicitly where
the source uses them.
-/

set_option maxHeartbeats 1600000

namespace GoL

/-- Reading entry `(i, j)` of a row-major matrix, with default `0` for
out-of-range indices; in-range accesses of a well-shaped grid never reach the
default. -/
def cell (grid : List (List Int)) (i j : Nat) : Int :=
  (grid.getD i []).getD j 0

/-- Writing entry `(i, j)` of a row-major matrix, mirroring the numpy
assignment `grid[i, j] = v` for in-range indices (`List.set` is the identity
out of range, which can never happen on a well-shaped grid). -/
def setEntry (grid : List (List Int)) (i j : Nat) (v : Int) : List (List Int) :=
  grid.set i ((grid.getD i []).set j v)

/-- The grid is a dense `height × width` matrix, the shape every numpy array
of the program has by construction. -/
def GridShape (grid : List (List Int)) (height width : Nat) : Prop :=
  grid.length = height ∧ ∀ row ∈ grid, row.length = width

/-- Every entry of the matrix is `0` or `1`. -/
def BinaryGrid (grid : List (List Int)) : Prop :=
  ∀ row ∈ grid, ∀ v ∈ row, v = 0 ∨ v = 1

/-- Every entry of the matrix is `0` (all cells dead). -/
def AllDead (grid : List (List Int)) : Prop :=
  ∀ row ∈ grid, ∀ v ∈ row, v = 0

/-- The state of the `GameOfLife` class of `game_of_life.py`: the dimensions,
the current board, the generation counter and the undo history.  The
`boundary_type` field of the source is the constant string "fixed" and is
never read by any method, so it is omitted. -/
structure GameOfLife where
  width : Nat
  height : Nat
  grid : List (List Int)
  generation : Int
  history : List (List (List Int))
deriving DecidableEq

/-- `GameOfLife.__init__`: an all-dead `height × width` grid
(`np.zeros((height, width))`), generation `0`, empty history. -/
def GameOfLife.init (width height : Nat) : GameOfLife :=
  { width := width
    height := height
    grid := List.replicate height (List.replicate width 0)
    generation := 0
    history := [] }

/-- Sum of the numpy slice `grid[r0:r1, c0:c1]`; like numpy slices, `take`
clips at the end of each axis. -/
def sliceSum (grid : List (List Int)) (r0 r1 c0 c1 : Nat) : Int :=
  (((grid.drop r0).take (r1 - r0)).map
    (fun row => ((row.drop c0).take (c1 - c0)).sum)).sum

/-- `GameOfLife._count_neighbors`: the sum of the window
`grid[max(0,i-1):min(height,i+2), max(0,j-1):min(width,j+2)]` minus the cell
itself; Nat subtraction `i - 1` is exactly Python `max(0, i-1)`. -/
def GameOfLife._count_neighbors (g : GameOfLife) (i j : Nat) : Int :=
  sliceSum g.grid (i - 1) (min g.height (i + 2)) (j - 1) (min g.width (j + 2))
    - cell g.grid i j

/-- `GameOfLife.update`: append a snapshot of the grid to the history, pop the
oldest entry when the length exceeds 50, then rewrite every cell of a copy of
the grid from the pre-update grid (alive cells die outside 2-3 neighbours,
dead cells are born on exactly 3), swap the copy in and increment the
generation counter. -/
def GameOfLife.update (g : GameOfLife) : GameOfLife :=
  let history1 := g.history ++ [g.grid]
  let history2 := if 50 < history1.length then history1.drop 1 else history1
  let newGrid := g.grid.mapIdx fun i row => row.mapIdx fun j cur =>
    if i < g.height ∧ j < g.width then
      let neighbors := g._count_neighbors i j
      if cur ≠ 0 then
        if neighbors < 2 ∨ 3 < neighbors then 0 else cur
      else if neighbors = 3 then 1 else cur
    else cur
  { g with grid := newGrid, generation := g.generation + 1, history := history2 }

/-- `GameOfLife.toggle_cell`: flip the cell when `0 <= i < height` and
`0 <= j < width`; silently do nothing otherwise (the Python method has no
else branch).  `not grid[i, j]` stores `1` on a zero entry and `0` on a
non-zero entry. -/
def GameOfLife.toggle_cell (g : GameOfLife) (i j : Int) : GameOfLife :=
  if 0 ≤ i ∧ i < g.height ∧ 0 ≤ j ∧ j < g.width then
    let v := if cell g.grid i.toNat j.toNat ≠ 0 then 0 else 1
    { g with grid := setEntry g.grid i.toNat j.toNat v }
  else g

/-- `GameOfLife.clear`: `grid.fill(0)` keeps the shape and zeroes every
entry. -/
def GameOfLife.clear (g : GameOfLife) : GameOfLife :=
  { g with grid := g.grid.map fun row => row.map fun _ => 0 }

/-- `GameOfLife.randomize`: `np.random.choice([0, 1], size=(height, width))`
builds a fresh `height × width` grid each of whose entries is `0` or `1`; the
random draw is modelled by the oracle `r`. -/
def GameOfLife.randomize (g : GameOfLife) (r : Nat → Nat → Bool) : GameOfLife :=
  { g with grid := (List.range g.height).map fun i =>
      (List.range g.width).map fun j => if r i j then 1 else 0 }

/-- `GameOfLife.undo`: when the history is non-empty, pop its most recent
snapshot into the grid and decrement the generation, returning `True`;
otherwise return `False` and change nothing. -/
def GameOfLife.undo (g : GameOfLife) : GameOfLife × Bool :=
  match g.history.getLast? with
  | some snap =>
    ({ g with
        grid := snap
        history := g.history.dropLast
        generation := g.generation - 1 }, true)
  | none => (g, false)

/-- The `Pattern` class: a named stamp matrix with a description. -/
structure Pattern where
  name : String
  pattern : List (List Int)
  description : String

/-- The numpy slice assignment `grid[i0:i0+ph, j0:j0+pw] = pat`, written
pointwise: entries inside the destination window take the pattern value, all
other entries keep their value. -/
def overlay (grid pat : List (List Int)) (i0 j0 : Nat) : List (List Int) :=
  grid.mapIdx fun r row => row.mapIdx fun c v =>
    if i0 ≤ r ∧ r < i0 + pat.length
        ∧ j0 ≤ c ∧ c < j0 + (pat.getD (r - i0) []).length then
      cell pat (r - i0) (c - j0)
    else v

/-- `MainWindow.apply_pattern`, engine part: the target coordinates (derived
from the view centre in the UI layer and supplied by the caller here) are
clamped with `i = max(0, min(i, height - pattern_height))` and likewise for
`j` — over `Int`, since the Python subtraction may be negative — and then the
numpy slice assignment `grid[i:i+ph, j:j+pw] = pattern.pattern` runs.  numpy
raises a broadcast `ValueError` when the clipped slice shape differs from the
(rectangular) pattern shape, which happens exactly when the pattern exceeds
the grid in some dimension. -/
def apply_pattern (g : GameOfLife) (p : Pattern) (ti tj : Int) :
    Except String GameOfLife :=
  let ph := p.pattern.length
  let pw := (p.pattern.headD []).length
  let i0 := (max 0 (min ti ((g.height : Int) - ph))).toNat
  let j0 := (max 0 (min tj ((g.width : Int) - pw))).toNat
  if min g.height (i0 + ph) - i0 = ph ∧ min g.width (j0 + pw) - j0 = pw then
    Except.ok { g with grid := overlay g.grid p.pattern i0 j0 }
  else
    Except.error "ValueError: could not broadcast pattern into clipped slice"

/-- `MainWindow.load_state`: `np.load` either yields a matrix, which is
assigned to `game.grid` — generation, history, width and height are left
untouched — or raises, in which case the assignment never happens and the
engine state is unchanged. -/
def load_state (g : GameOfLife) (data : Except String (List (List Int))) :
    Except String GameOfLife :=
  match data with
  | Except.ok m => Except.ok { g with grid := m }
  | Except.error e => Except.error e

/-- A numpy index that may be negative by at most the axis length: Python
negative indices count from the end.  The wrap variant only ever produces row
indices in `[-1, n)` and column indices in `[-1, m)`. -/
def npIdx (t : Int) (size : Nat) : Nat :=
  (if t < 0 then t + size else t).toNat

/-- The eight-term neighbour sum of `game_of_life` in `GameOfLife.py`, with
the literal source indices `i-1`, `i`, `(i+1) % n` and `j-1`, `j`,
`(j+1) % m`; the `-1` cases wrap through numpy negative indexing. -/
def gol_neighbors (grid : List (List Int)) (n m i j : Nat) : Int :=
  cell grid (npIdx ((i : Int) - 1) n) (npIdx ((j : Int) - 1) m)
    + cell grid (npIdx ((i : Int) - 1) n) j
    + cell grid (npIdx ((i : Int) - 1) n) ((j + 1) % m)
    + cell grid i (npIdx ((j : Int) - 1) m)
    + cell grid i ((j + 1) % m)
    + cell grid ((i + 1) % n) (npIdx ((j : Int) - 1) m)
    + cell grid ((i + 1) % n) j
    + cell grid ((i + 1) % n) ((j + 1) % m)

/-- The `game_of_life` function of `GameOfLife.py`: copy the grid, then for
every `(i, j)` in `range(n) × range(m)` apply the birth/survival rule using
the wrap-boundary neighbour count of the old grid, and return the copy. -/
def game_of_life (n m : Nat) (grid : List (List Int)) : List (List Int) :=
  grid.mapIdx fun i row => row.mapIdx fun j cur =>
    if i < n ∧ j < m then
      let neighbors := gol_neighbors grid n m i j
      if cur = 1 then
        if neighbors < 2 ∨ 3 < neighbors then 0 else cur
      else if neighbors = 3 then 1 else cur
    else cur

/-- The Game of Life transition rule in the form the spec states it
(RuleEngine): an alive cell survives exactly on 2 or 3 neighbours, a dead
cell is born exactly on 3, everything else is dead. -/
def lifeRule (cur neighbors : Int) : Int :=
  if cur = 1 then
    if neighbors = 2 ∨ neighbors = 3 then 1 else 0
  else if neighbors = 3 then 1 else 0

/-- The clamp-policy Moore neighbour count in the form the spec states it:
the sum of the at-most-8 Moore neighbours that lie inside the grid, the cell
itself excluded; positions outside the grid contribute nothing. -/
def mooreCountClamp (grid : List (List Int)) (height width i j : Nat) : Int :=
  (if 1 ≤ i ∧ 1 ≤ j then cell grid (i - 1) (j - 1) else 0)
    + (if 1 ≤ i then cell grid (i - 1) j else 0)
    + (if 1 ≤ i ∧ j + 1 < width then cell grid (i - 1) (j + 1) else 0)
    + (if 1 ≤ j then cell grid i (j - 1) else 0)
    + (if j + 1 < width then cell grid i (j + 1) else 0)
    + (if i + 1 < height ∧ 1 ≤ j then cell grid (i + 1) (j - 1) else 0)
    + (if i + 1 < height then cell grid (i + 1) j else 0)
    + (if i + 1 < height ∧ j + 1 < width then cell grid (i + 1) (j + 1) else 0)

/-- The wrap-policy Moore neighbour count in the form the spec states it: the
8 Moore offsets taken modulo the grid dimensions. -/
def mooreCountWrap (grid : List (List Int)) (n m i j : Nat) : Int :=
  cell grid (((i : Int) - 1) % (n : Int)).toNat (((j : Int) - 1) % (m : Int)).toNat
    + cell grid (((i : Int) - 1) % (n : Int)).toNat (((j : Int)) % (m : Int)).toNat
    + cell grid (((i : Int) - 1) % (n : Int)).toNat (((j : Int) + 1) % (m : Int)).toNat
    + cell grid (((i : Int)) % (n : Int)).toNat (((j : Int) - 1) % (m : Int)).toNat
    + cell grid (((i : Int)) % (n : Int)).toNat (((j : Int) + 1) % (m : Int)).toNat
    + cell grid (((i : Int) + 1) % (n : Int)).toNat (((j : Int) - 1) % (m : Int)).toNat
    + cell grid (((i : Int) + 1) % (n : Int)).toNat (((j : Int)) % (m : Int)).toNat
    + cell grid (((i : Int) + 1) % (n : Int)).toNat (((j : Int) + 1) % (m : Int)).toNat

/-- The states of a `GameOfLife` engine reachable from construction through
the mutating operations of the engine surface. -/
inductive Reachable : GameOfLife → Prop where
  | init (width height : Nat) : Reachable (GameOfLife.init width height)
  | update {g : GameOfLife} : Reachable g → Reachable g.update
  | toggle_cell {g : GameOfLife} (i j : Int) :
      Reachable g → Reachable (g.toggle_cell i j)
  | clear {g : GameOfLife} : Reachable g → Reachable g.clear
  | randomize {g : GameOfLife} (r : Nat → Nat → Bool) :
      Reachable g → Reachable (g.randomize r)
  | undo {g : GameOfLife} : Reachable g → Reachable g.undo.1

/-- The three in-bounds entries of one row of the Moore window (a proof-side
abbreviation). -/

def rowTriple (grid : List (List Int)) (w r j : Nat) : Int :=
  (if 1 ≤ j then cell grid r (j - 1) else 0) + cell grid r j
    + (if j + 1 < w then cell grid r (j + 1) else 0)

/-- The inductive invariant of the engine: the history is bounded by 50, the
generation counter dominates the history length, and every stored grid is
binary. -/

def Inv (g : GameOfLife) : Prop :=
  g.history.length ≤ 50
    ∧ (g.history.length : Int) ≤ g.generation
    ∧ BinaryGrid g.grid
    ∧ ∀ s ∈ g.history, BinaryGrid s

/-- `k` consecutive calls of `update` (consecutive steps of the engine). -/

def updateIter : Nat → GameOfLife → GameOfLife
  | 0, g => g
  | k + 1, g => (updateIter k g).update

/-- `k` consecutive calls of `undo`, keeping only the resulting state. -/

def undoIter : Nat → GameOfLife → GameOfLife
  | 0, g => g
  | k + 1, g => (undoIter k g).undo.1

/-- The clamped placement origin `max(0, min(target, size - patlen))` of
`apply_pattern`, as a natural number. -/

def clampOrigin (t : Int) (size len : Nat) : Nat :=
  (max 0 (min t ((size : Int) - len))).toNat

/-- A deserialised matrix that is rectangular with every entry 0 or 1 — what
the claim calls "a rectangular binary matrix". -/

def RectangularBinary (m : List (List Int)) : Prop :=
  (∀ row ∈ m, row.length = (m.headD []).length) ∧ BinaryGrid m

instance (grid : List (List Int)) (h w : Nat) : Decidable (GridShape grid h w) :=
  inferInstanceAs (Decidable (grid.length = h ∧ ∀ row ∈ grid, row.length = w))

instance (grid : List (List Int)) : Decidable (BinaryGrid grid) :=
  inferInstanceAs (Decidable (∀ row ∈ grid, ∀ v ∈ row, v = 0 ∨ v = 1))

instance (grid : List (List Int)) : Decidable (AllDead grid) :=
  inferInstanceAs (Decidable (∀ row ∈ grid, ∀ v ∈ row, v = 0))

instance (m : List (List Int)) : Decidable (RectangularBinary m) :=
  inferInstanceAs (Decidable ((∀ row ∈ m, row.length = (m.headD []).length)
    ∧ BinaryGrid m))

/-! Basic facts about `cell`, `setEntry` and matrices built with `mapIdx`. -/

theorem cell_of_lt {grid : List (List Int)} {i : Nat} (j : Nat)
    (hi : i < grid.length) : cell grid i j = (grid[i]).getD j 0 := by
  simp [cell, List.getElem?_eq_getElem hi]

theorem cell_out_of_rows {grid : List (List Int)} {i : Nat} (j : Nat)
    (hi : grid.length ≤ i) : cell grid i j = 0 := by
  simp [cell, List.getElem?_eq_none hi]

theorem getD_row_eq {grid : List (List Int)} {i : Nat} (hi : i < grid.length) :
    grid.getD i [] = grid[i] := by
  simp [List.getElem?_eq_getElem hi]

theorem binary_cell {grid : List (List Int)} (hb : BinaryGrid grid)
    (i j : Nat) : cell grid i j = 0 ∨ cell grid i j = 1 := by
  by_cases hi : i < grid.length
  · rw [cell_of_lt j hi]
    by_cases hj : j < grid[i].length
    · rw [List.getD_eq_getElem?_getD, List.getElem?_eq_getElem hj]
      exact hb grid[i] (List.getElem_mem hi) _ (List.getElem_mem hj)
    · left
      simp [List.getD_eq_getElem?_getD, List.getElem?_eq_none (Nat.le_of_not_lt hj)]
  · left
    exact cell_out_of_rows j (Nat.le_of_not_lt hi)

theorem allDead_cell {grid : List (List Int)} (hd : AllDead grid)
    (i j : Nat) : cell grid i j = 0 := by
  by_cases hi : i < grid.length
  · rw [cell_of_lt j hi]
    by_cases hj : j < grid[i].length
    · rw [List.getD_eq_getElem?_getD, List.getElem?_eq_getElem hj]
      exact hd grid[i] (List.getElem_mem hi) _ (List.getElem_mem hj)
    · simp [List.getD_eq_getElem?_getD, List.getElem?_eq_none (Nat.le_of_not_lt hj)]
  · exact cell_out_of_rows j (Nat.le_of_not_lt hi)

theorem cell_mapIdx (grid : List (List Int)) (G : Nat → Nat → Int → Int)
    {i j : Nat} (hi : i < grid.length) (hj : j < grid[i].length) :
    cell (grid.mapIdx fun r row => row.mapIdx fun c v => G r c v) i j
      = G i j (cell grid i j) := by
  have h1 : i < (grid.mapIdx fun r row => row.mapIdx fun c v => G r c v).length := by
    simpa using hi
  rw [cell_of_lt j h1]
  simp only [List.getElem_mapIdx]
  have h2 : j < (grid[i].mapIdx fun c v => G i c v).length := by simpa using hj
  rw [List.getD_eq_getElem?_getD, List.getElem?_eq_getElem h2]
  simp only [List.getElem_mapIdx, Option.getD_some]
  rw [cell_of_lt j hi, List.getD_eq_getElem?_getD, List.getElem?_eq_getElem hj]
  simp

theorem length_grid_mapIdx (grid : List (List Int)) (G : Nat → Nat → Int → Int) :
    (grid.mapIdx fun r row => row.mapIdx fun c v => G r c v).length
      = grid.length := by
  simp

theorem shape_mapIdx {grid : List (List Int)} {h w : Nat}
    (hs : GridShape grid h w) (G : Nat → Nat → Int → Int) :
    GridShape (grid.mapIdx fun r row => row.mapIdx fun c v => G r c v) h w := by
  constructor
  · simpa using hs.1
  · intro row hrow
    rcases List.mem_iff_getElem.mp hrow with ⟨n, hn, hrow⟩
    simp only [List.getElem_mapIdx] at hrow
    have hn2 : n < grid.length := by simpa using hn
    have : grid[n] ∈ grid := List.getElem_mem hn2
    rw [← hrow]
    simpa using hs.2 grid[n] this

theorem binary_mapIdx {grid : List (List Int)} (hb : BinaryGrid grid)
    (G : Nat → Nat → Int → Int)
    (hG : ∀ r c v, (v = 0 ∨ v = 1) → (G r c v = 0 ∨ G r c v = 1)) :
    BinaryGrid (grid.mapIdx fun r row => row.mapIdx fun c v => G r c v) := by
  intro row hrow v hv
  rcases List.mem_iff_getElem.mp hrow with ⟨n, hn, hrow⟩
  simp only [List.getElem_mapIdx] at hrow
  have hn2 : n < grid.length := by simpa using hn
  rw [← hrow] at hv
  rcases List.mem_iff_getElem.mp hv with ⟨c, hc, hv⟩
  simp only [List.getElem_mapIdx] at hv
  have hc2 : c < grid[n].length := by simpa using hc
  rw [← hv]
  exact hG n c _ (hb grid[n] (List.getElem_mem hn2) _ (List.getElem_mem hc2))

theorem length_setEntry (grid : List (List Int)) (i j : Nat) (v : Int) :
    (setEntry grid i j v).length = grid.length := by
  simp [setEntry]

theorem shape_setEntry {grid : List (List Int)} {h w : Nat}
    (hs : GridShape grid h w) (i j : Nat) (v : Int) :
    GridShape (setEntry grid i j v) h w := by
  by_cases hi : i < grid.length
  · constructor
    · simpa [setEntry] using hs.1
    · intro row hrow
      rcases List.mem_or_eq_of_mem_set hrow with hmem | heq
      · exact hs.2 row hmem
      · subst heq
        rw [getD_row_eq hi]
        simpa using hs.2 grid[i] (List.getElem_mem hi)
  · rw [setEntry, List.set_eq_of_length_le (Nat.le_of_not_lt hi)]
    exact hs

theorem binary_setEntry {grid : List (List Int)} (hb : BinaryGrid grid)
    (i j : Nat) {v : Int} (hv : v = 0 ∨ v = 1) :
    BinaryGrid (setEntry grid i j v) := by
  by_cases hi : i < grid.length
  · intro row hrow x hx
    rcases List.mem_or_eq_of_mem_set hrow with hmem | heq
    · exact hb row hmem x hx
    · subst heq
      rcases List.mem_or_eq_of_mem_set hx with hxmem | hxeq
      · rw [getD_row_eq hi] at hxmem
        exact hb grid[i] (List.getElem_mem hi) x hxmem
      · subst hxeq
        exact hv
  · rw [setEntry, List.set_eq_of_length_le (Nat.le_of_not_lt hi)]
    exact hb

/-! Matrix extensionality through `cell`. -/

theorem grid_ext {a b : List (List Int)} (hlen : a.length = b.length)
    (hrow : ∀ i, i < a.length → (a.getD i []).length = (b.getD i []).length)
    (hcell : ∀ i j, cell a i j = cell b i j) : a = b := by
  apply List.ext_getElem?
  intro n
  by_cases hn : n < a.length
  · have hn2 : n < b.length := hlen ▸ hn
    rw [List.getElem?_eq_getElem hn, List.getElem?_eq_getElem hn2]
    congr 1
    apply List.ext_getElem?
    intro k
    have hr := hrow n hn
    rw [getD_row_eq hn, getD_row_eq hn2] at hr
    by_cases hk : k < a[n].length
    · have hk2 : k < b[n].length := hr ▸ hk
      rw [List.getElem?_eq_getElem hk, List.getElem?_eq_getElem hk2]
      have := hcell n k
      rw [cell_of_lt k hn, cell_of_lt k hn2, List.getD_eq_getElem?_getD,
        List.getD_eq_getElem?_getD, List.getElem?_eq_getElem hk,
        List.getElem?_eq_getElem hk2] at this
      simpa using this
    · rw [List.getElem?_eq_none (Nat.le_of_not_lt hk),
        List.getElem?_eq_none (Nat.le_of_not_lt (hr ▸ hk))]
  · rw [List.getElem?_eq_none (Nat.le_of_not_lt hn),
      List.getElem?_eq_none (Nat.le_of_not_lt (hlen ▸ hn))]

/-! Sums of clipped slices, leading to the Moore-window form of
`_count_neighbors`. -/

theorem map_take_sum (l : List α) (f : α → Int) (d : α) :
    ∀ k : Nat, ((l.take k).map f).sum
      = ∑ t ∈ Finset.range (min k l.length), f (l.getD t d) := by
  induction l with
  | nil => intro k; simp
  | cons x xs ih =>
    intro k
    cases k with
    | zero => simp
    | succ k =>
      rw [List.take_succ_cons, List.map_cons, List.sum_cons, ih k]
      have hmin : min (k + 1) (x :: xs).length = min k xs.length + 1 := by
        simp [Nat.succ_min_succ]
      rw [hmin, Finset.sum_range_succ']
      simp [add_comm]

theorem drop_take_sum (l : List α) (f : α → Int) (d : α) (a k : Nat) :
    (((l.drop a).take k).map f).sum
      = ∑ t ∈ Finset.range (min k (l.length - a)), f (l.getD (a + t) d) := by
  rw [map_take_sum (l.drop a) f d k]
  have hlen : (l.drop a).length = l.length - a := by simp
  rw [hlen]
  apply Finset.sum_congr rfl
  intro t _
  congr 1
  simp [List.getD_eq_getElem?_getD, List.getElem?_drop]

theorem window_sum (F : Nat → Int) (bound i : Nat) (hi : i < bound) :
    ∑ t ∈ Finset.range (min (min bound (i + 2) - (i - 1)) (bound - (i - 1))),
        F (i - 1 + t)
      = (if 1 ≤ i then F (i - 1) else 0) + F i
          + (if i + 1 < bound then F (i + 1) else 0) := by
  have hmin : min (min bound (i + 2) - (i - 1)) (bound - (i - 1))
      = min bound (i + 2) - (i - 1) := by omega
  rw [hmin]
  rcases Nat.eq_zero_or_pos i with hz | hpos
  · subst hz
    rcases Nat.lt_or_ge 2 bound with hb | hb
    · have h2 : min bound 2 - 0 = 2 := by omega
      rw [h2, Finset.sum_range_succ, Finset.sum_range_one]
      have : ¬(1 : Nat) ≤ 0 := by omega
      simp [this, Nat.lt_of_lt_of_le (by omega : 1 < 2) (by omega : 2 ≤ bound)]
    · have hb1 : bound = 1 ∨ bound = 2 := by omega
      rcases hb1 with hb1 | hb1 <;> subst hb1
      · have h1 : min 1 2 - 0 = 1 := by omega
        rw [h1, Finset.sum_range_one]
        simp
      · have h2 : min 2 2 - 0 = 2 := by omega
        rw [h2, Finset.sum_range_succ, Finset.sum_range_one]
        simp
  · rcases Nat.lt_or_ge (i + 1) bound with hb | hb
    · have h3 : min bound (i + 2) - (i - 1) = 3 := by omega
      rw [h3, Finset.sum_range_succ, Finset.sum_range_succ, Finset.sum_range_one]
      have e0 : i - 1 + 0 = i - 1 := by omega
      have e1 : i - 1 + 1 = i := by omega
      have e2 : i - 1 + 2 = i + 1 := by omega
      rw [e0, e1, e2]
      have h1 : 1 ≤ i := hpos
      simp [h1, hb]
    · have hb1 : bound = i + 1 := by omega
      have h2 : min bound (i + 2) - (i - 1) = 2 := by omega
      rw [h2, Finset.sum_range_succ, Finset.sum_range_one]
      have e0 : i - 1 + 0 = i - 1 := by omega
      have e1 : i - 1 + 1 = i := by omega
      rw [e0, e1]
      have h1 : 1 ≤ i := hpos
      have : ¬(i + 1 < bound) := by omega
      simp [h1, this]

theorem row_window {grid : List (List Int)} {h w : Nat}
    (hs : GridShape grid h w) {r : Nat} (hr : r < h) {j : Nat} (hj : j < w) :
    (((grid.getD r []).drop (j - 1)).take (min w (j + 2) - (j - 1))).sum
      = rowTriple grid w r j := by
  have hrl : r < grid.length := by rw [hs.1]; exact hr
  have hwlen : (grid.getD r []).length = w := by
    rw [getD_row_eq hrl]
    exact hs.2 _ (List.getElem_mem hrl)
  have hmap := drop_take_sum (grid.getD r []) id 0 (j - 1) (min w (j + 2) - (j - 1))
  rw [List.map_id] at hmap
  rw [hmap, hwlen]
  have hwin := window_sum (fun c => (grid.getD r []).getD c 0) w j hj
  simp only [id_eq]
  rw [hwin]
  rfl

theorem if_and_eq (P Q : Prop) [Decidable P] [Decidable Q] (x : Int) :
    (if P ∧ Q then x else 0) = if P then (if Q then x else 0) else 0 := by
  by_cases hP : P <;> by_cases hQ : Q <;> simp [hP, hQ]

theorem count_neighbors_eq_moore (g : GameOfLife) {i j : Nat}
    (hs : GridShape g.grid g.height g.width)
    (hi : i < g.height) (hj : j < g.width) :
    g._count_neighbors i j
      = mooreCountClamp g.grid g.height g.width i j := by
  unfold GameOfLife._count_neighbors sliceSum
  rw [drop_take_sum g.grid
    (fun row => ((row.drop (j - 1)).take (min g.width (j + 2) - (j - 1))).sum)
    [] (i - 1) (min g.height (i + 2) - (i - 1))]
  rw [hs.1]
  rw [window_sum
    (fun r => (((g.grid.getD r []).drop (j - 1)).take
      (min g.width (j + 2) - (j - 1))).sum) g.height i hi]
  rw [row_window hs hi hj]
  have e1 : (if 1 ≤ i then
        (((g.grid.getD (i - 1) []).drop (j - 1)).take
          (min g.width (j + 2) - (j - 1))).sum else 0)
      = if 1 ≤ i then rowTriple g.grid g.width (i - 1) j else 0 := by
    split_ifs with h
    · exact row_window hs (by omega) hj
    · rfl
  have e2 : (if i + 1 < g.height then
        (((g.grid.getD (i + 1) []).drop (j - 1)).take
          (min g.width (j + 2) - (j - 1))).sum else 0)
      = if i + 1 < g.height then rowTriple g.grid g.width (i + 1) j else 0 := by
    split_ifs with h
    · exact row_window hs h hj
    · rfl
  rw [e1, e2]
  unfold rowTriple mooreCountClamp
  simp only [if_and_eq]
  split_ifs <;> ring

theorem mooreCountClamp_bounds {grid : List (List Int)} (h w i j : Nat)
    (hb : BinaryGrid grid) :
    0 ≤ mooreCountClamp grid h w i j ∧ mooreCountClamp grid h w i j ≤ 8 := by
  have B : ∀ (P : Prop) [Decidable P] (r c : Nat),
      0 ≤ (if P then cell grid r c else 0)
        ∧ (if P then cell grid r c else 0) ≤ 1 := by
    intro P _ r c
    split_ifs with hP
    · rcases binary_cell hb r c with h0 | h1
      · rw [h0]; exact ⟨le_refl 0, by norm_num⟩
      · rw [h1]; exact ⟨by norm_num, le_refl 1⟩
    · exact ⟨le_refl 0, by norm_num⟩
  have b1 := B (1 ≤ i ∧ 1 ≤ j) (i - 1) (j - 1)
  have b2 := B (1 ≤ i) (i - 1) j
  have b3 := B (1 ≤ i ∧ j + 1 < w) (i - 1) (j + 1)
  have b4 := B (1 ≤ j) i (j - 1)
  have b5 := B (j + 1 < w) i (j + 1)
  have b6 := B (i + 1 < h ∧ 1 ≤ j) (i + 1) (j - 1)
  have b7 := B (i + 1 < h) (i + 1) j
  have b8 := B (i + 1 < h ∧ j + 1 < w) (i + 1) (j + 1)
  unfold mooreCountClamp
  constructor <;>
    linarith [b1.1, b1.2, b2.1, b2.2, b3.1, b3.2, b4.1, b4.2,
      b5.1, b5.2, b6.1, b6.2, b7.1, b7.2, b8.1, b8.2]

/-! Wrap-boundary index arithmetic: numpy negative indexing and Python `%`
agree with the mathematical Euclidean mod on the index ranges the source produces. -/

theorem emod_toNat_self {i n : Nat} (h : i < n) :
    (((i : Int)) % (n : Int)).toNat = i := by
  rw [Int.emod_eq_of_lt (by omega) (by exact_mod_cast h)]
  simp

theorem emod_toNat_add_one (i n : Nat) :
    (((i : Int) + 1) % (n : Int)).toNat = (i + 1) % n := by
  have h2 : ((i : Int) + 1) % (n : Int) = (((i + 1) % n : Nat) : Int) := by
    norm_cast
  rw [h2]
  exact Int.toNat_ofNat _

theorem npIdx_sub_one {i n : Nat} (h : i < n) :
    npIdx ((i : Int) - 1) n = (((i : Int) - 1) % (n : Int)).toNat := by
  unfold npIdx
  rcases Nat.eq_zero_or_pos i with h0 | hpos
  · subst h0
    have hn : (0 : Int) < n := by exact_mod_cast h
    simp only [Nat.cast_zero, zero_sub]
    rw [if_pos (by norm_num : (-1 : Int) < 0)]
    have hm : (-1 : Int) % (n : Int) = -1 + (n : Int) := by
      have hself := Int.add_mul_emod_self_left (-1) (n : Int) 1
      rw [mul_one] at hself
      rw [← hself]
      exact Int.emod_eq_of_lt (by omega) (by omega)
    rw [hm]
  · have hge : ¬((i : Int) - 1 < 0) := by omega
    rw [if_neg hge, Int.emod_eq_of_lt (by omega) (by omega)]

theorem gol_neighbors_eq_mooreWrap (grid : List (List Int)) {n m i j : Nat}
    (hi : i < n) (hj : j < m) :
    gol_neighbors grid n m i j = mooreCountWrap grid n m i j := by
  unfold gol_neighbors mooreCountWrap
  rw [npIdx_sub_one hi, npIdx_sub_one hj,
    emod_toNat_self hi, emod_toNat_self hj,
    emod_toNat_add_one i n, emod_toNat_add_one j m]

theorem mooreCountWrap_bounds {grid : List (List Int)} (n m i j : Nat)
    (hb : BinaryGrid grid) :
    0 ≤ mooreCountWrap grid n m i j ∧ mooreCountWrap grid n m i j ≤ 8 := by
  have B : ∀ r c : Nat, 0 ≤ cell grid r c ∧ cell grid r c ≤ 1 := by
    intro r c
    rcases binary_cell hb r c with h0 | h1
    · rw [h0]; exact ⟨le_refl 0, by norm_num⟩
    · rw [h1]; exact ⟨by norm_num, le_refl 1⟩
  unfold mooreCountWrap
  constructor <;>
    linarith [(B (((i : Int) - 1) % (n : Int)).toNat (((j : Int) - 1) % (m : Int)).toNat).1,
      (B (((i : Int) - 1) % (n : Int)).toNat (((j : Int) - 1) % (m : Int)).toNat).2,
      (B (((i : Int) - 1) % (n : Int)).toNat (((j : Int)) % (m : Int)).toNat).1,
      (B (((i : Int) - 1) % (n : Int)).toNat (((j : Int)) % (m : Int)).toNat).2,
      (B (((i : Int) - 1) % (n : Int)).toNat (((j : Int) + 1) % (m : Int)).toNat).1,
      (B (((i : Int) - 1) % (n : Int)).toNat (((j : Int) + 1) % (m : Int)).toNat).2,
      (B (((i : Int)) % (n : Int)).toNat (((j : Int) - 1) % (m : Int)).toNat).1,
      (B (((i : Int)) % (n : Int)).toNat (((j : Int) - 1) % (m : Int)).toNat).2,
      (B (((i : Int)) % (n : Int)).toNat (((j : Int) + 1) % (m : Int)).toNat).1,
      (B (((i : Int)) % (n : Int)).toNat (((j : Int) + 1) % (m : Int)).toNat).2,
      (B (((i : Int) + 1) % (n : Int)).toNat (((j : Int) - 1) % (m : Int)).toNat).1,
      (B (((i : Int) + 1) % (n : Int)).toNat (((j : Int) - 1) % (m : Int)).toNat).2,
      (B (((i : Int) + 1) % (n : Int)).toNat (((j : Int)) % (m : Int)).toNat).1,
      (B (((i : Int) + 1) % (n : Int)).toNat (((j : Int)) % (m : Int)).toNat).2,
      (B (((i : Int) + 1) % (n : Int)).toNat (((j : Int) + 1) % (m : Int)).toNat).1,
      (B (((i : Int) + 1) % (n : Int)).toNat (((j : Int) + 1) % (m : Int)).toNat).2]

/-! Pointwise characterisation of one generation step, for both variants. -/

theorem cell_update (g : GameOfLife) {i j : Nat}
    (hs : GridShape g.grid g.height g.width)
    (hi : i < g.height) (hj : j < g.width) :
    cell g.update.grid i j
      = (if cell g.grid i j ≠ 0 then
          (if g._count_neighbors i j < 2 ∨ 3 < g._count_neighbors i j then 0
            else cell g.grid i j)
        else if g._count_neighbors i j = 3 then 1 else cell g.grid i j) := by
  have hi2 : i < g.grid.length := by rw [hs.1]; exact hi
  have hj2 : j < g.grid[i].length := by
    rw [hs.2 _ (List.getElem_mem hi2)]; exact hj
  show cell (g.grid.mapIdx fun r row => row.mapIdx fun c v =>
      if r < g.height ∧ c < g.width then
        let neighbors := g._count_neighbors r c
        if v ≠ 0 then
          if neighbors < 2 ∨ 3 < neighbors then 0 else v
        else if neighbors = 3 then 1 else v
      else v) i j = _
  rw [cell_mapIdx g.grid _ hi2 hj2]
  simp only [hi, hj, and_self, if_true]

theorem cell_game_of_life (n m : Nat) (grid : List (List Int)) {i j : Nat}
    (hs : GridShape grid n m) (hi : i < n) (hj : j < m) :
    cell (game_of_life n m grid) i j
      = (if cell grid i j = 1 then
          (if gol_neighbors grid n m i j < 2 ∨ 3 < gol_neighbors grid n m i j
            then 0 else cell grid i j)
        else if gol_neighbors grid n m i j = 3 then 1 else cell grid i j) := by
  have hi2 : i < grid.length := by rw [hs.1]; exact hi
  have hj2 : j < grid[i].length := by
    rw [hs.2 _ (List.getElem_mem hi2)]; exact hj
  show cell (grid.mapIdx fun r row => row.mapIdx fun c v =>
      if r < n ∧ c < m then
        let neighbors := gol_neighbors grid n m r c
        if v = 1 then
          if neighbors < 2 ∨ 3 < neighbors then 0 else v
        else if neighbors = 3 then 1 else v
      else v) i j = _
  rw [cell_mapIdx grid _ hi2 hj2]
  simp only [hi, hj, and_self, if_true]

theorem updateRule_eq_lifeRule (cur n : Int) (hb : cur = 0 ∨ cur = 1) :
    (if cur ≠ 0 then (if n < 2 ∨ 3 < n then 0 else cur)
      else if n = 3 then 1 else cur) = lifeRule cur n := by
  rcases hb with h | h <;> subst h <;> unfold lifeRule <;> split_ifs <;> omega

theorem golRule_eq_lifeRule (cur n : Int) (hb : cur = 0 ∨ cur = 1) :
    (if cur = 1 then (if n < 2 ∨ 3 < n then 0 else cur)
      else if n = 3 then 1 else cur) = lifeRule cur n := by
  rcases hb with h | h <;> subst h <;> unfold lifeRule <;> split_ifs <;> omega

/-! An all-dead grid stays all dead. -/

theorem sliceSum_allDead {grid : List (List Int)} (hd : AllDead grid)
    (r0 r1 c0 c1 : Nat) : sliceSum grid r0 r1 c0 c1 = 0 := by
  unfold sliceSum
  apply List.sum_eq_zero
  intro x hx
  rcases List.mem_map.mp hx with ⟨row, hrow, hxval⟩
  have hrowg : row ∈ grid :=
    List.mem_of_mem_drop (List.mem_of_mem_take hrow)
  rw [← hxval]
  apply List.sum_eq_zero
  intro v hv
  exact hd row hrowg v (List.mem_of_mem_drop (List.mem_of_mem_take hv))

theorem count_neighbors_allDead (g : GameOfLife) (hd : AllDead g.grid)
    (i j : Nat) : g._count_neighbors i j = 0 := by
  unfold GameOfLife._count_neighbors
  rw [sliceSum_allDead hd, allDead_cell hd]
  norm_num

theorem gol_neighbors_allDead {grid : List (List Int)} (hd : AllDead grid)
    (n m i j : Nat) : gol_neighbors grid n m i j = 0 := by
  unfold gol_neighbors
  rw [allDead_cell hd, allDead_cell hd, allDead_cell hd, allDead_cell hd,
    allDead_cell hd, allDead_cell hd, allDead_cell hd, allDead_cell hd]
  norm_num

theorem allDead_mapIdx {grid : List (List Int)} (hd : AllDead grid)
    (G : Nat → Nat → Int → Int) (hG : ∀ r c, G r c 0 = 0) :
    AllDead (grid.mapIdx fun r row => row.mapIdx fun c v => G r c v) := by
  intro row hrow v hv
  rcases List.mem_iff_getElem.mp hrow with ⟨r, hr, hrow⟩
  simp only [List.getElem_mapIdx] at hrow
  have hr2 : r < grid.length := by simpa using hr
  rw [← hrow] at hv
  rcases List.mem_iff_getElem.mp hv with ⟨c, hc, hv⟩
  simp only [List.getElem_mapIdx] at hv
  have hc2 : c < grid[r].length := by simpa using hc
  rw [← hv]
  have hz : grid[r][c] = 0 :=
    hd grid[r] (List.getElem_mem hr2) _ (List.getElem_mem hc2)
  rw [hz]
  exact hG r c

theorem update_allDead (g : GameOfLife) (hd : AllDead g.grid) :
    AllDead g.update.grid := by
  show AllDead (g.grid.mapIdx fun r row => row.mapIdx fun c v =>
    if r < g.height ∧ c < g.width then
      let neighbors := g._count_neighbors r c
      if v ≠ 0 then
        if neighbors < 2 ∨ 3 < neighbors then 0 else v
      else if neighbors = 3 then 1 else v
    else v)
  apply allDead_mapIdx hd
  intro r c
  rw [count_neighbors_allDead g hd r c]
  norm_num

theorem game_of_life_allDead (n m : Nat) {grid : List (List Int)}
    (hd : AllDead grid) : AllDead (game_of_life n m grid) := by
  unfold game_of_life
  apply allDead_mapIdx hd
  intro r c
  rw [gol_neighbors_allDead hd n m r c]
  norm_num

/-! History bookkeeping of `update` and `undo`. -/

theorem update_history_getLast (g : GameOfLife) :
    g.update.history.getLast? = some g.grid := by
  show (if 50 < (g.history ++ [g.grid]).length then
      (g.history ++ [g.grid]).drop 1
    else g.history ++ [g.grid]).getLast? = some g.grid
  split_ifs with hlen
  · have hone : 1 ≤ g.history.length := by
      simp only [List.length_append, List.length_cons, List.length_nil] at hlen
      omega
    rw [List.drop_append_of_le_length hone, List.getLast?_concat]
  · exact List.getLast?_concat _

theorem update_history_length (g : GameOfLife) :
    g.update.history.length
      = if 50 < g.history.length + 1 then g.history.length
        else g.history.length + 1 := by
  show (if 50 < (g.history ++ [g.grid]).length then
      (g.history ++ [g.grid]).drop 1
    else g.history ++ [g.grid]).length
    = if 50 < g.history.length + 1 then g.history.length
      else g.history.length + 1
  simp only [List.length_append, List.length_cons, List.length_nil,
    Nat.add_zero, Nat.zero_add]
  split_ifs with hlen
  · simp
  · simp

theorem update_history_mem (g : GameOfLife) {s : List (List Int)}
    (hmem : s ∈ g.update.history) : s ∈ g.history ∨ s = g.grid := by
  have : s ∈ g.history ++ [g.grid] := by
    revert hmem
    show s ∈ (if 50 < (g.history ++ [g.grid]).length then
        (g.history ++ [g.grid]).drop 1
      else g.history ++ [g.grid]) → s ∈ g.history ++ [g.grid]
    split_ifs with hlen
    · exact List.mem_of_mem_drop
    · exact id
  rcases List.mem_append.mp this with hmem2 | hmem2
  · exact Or.inl hmem2
  · exact Or.inr (by simpa using hmem2)

theorem update_history_eviction (g : GameOfLife)
    (hfull : g.history.length = 50) :
    g.update.history = g.history.drop 1 ++ [g.grid] := by
  show (if 50 < (g.history ++ [g.grid]).length then
      (g.history ++ [g.grid]).drop 1
    else g.history ++ [g.grid]) = g.history.drop 1 ++ [g.grid]
  have hlen : 50 < (g.history ++ [g.grid]).length := by
    simp [hfull]
  rw [if_pos hlen, List.drop_append_of_le_length (by omega)]

theorem update_history_append (g : GameOfLife)
    (hroom : g.history.length < 50) :
    g.update.history = g.history ++ [g.grid] := by
  show (if 50 < (g.history ++ [g.grid]).length then
      (g.history ++ [g.grid]).drop 1
    else g.history ++ [g.grid]) = g.history ++ [g.grid]
  rw [if_neg]
  simp only [List.length_append, List.length_cons, List.length_nil]
  omega

theorem update_generation (g : GameOfLife) :
    g.update.generation = g.generation + 1 := rfl

theorem update_width (g : GameOfLife) : g.update.width = g.width := rfl

theorem update_height (g : GameOfLife) : g.update.height = g.height := rfl

theorem undo_of_getLast (g : GameOfLife) {s : List (List Int)}
    (h : g.history.getLast? = some s) :
    g.undo = ({ g with
        grid := s
        history := g.history.dropLast
        generation := g.generation - 1 }, true) := by
  unfold GameOfLife.undo
  rw [h]

theorem undo_of_empty (g : GameOfLife) (h : g.history = []) :
    g.undo = (g, false) := by
  unfold GameOfLife.undo
  rw [h]
  rfl

theorem undo_history_length (g : GameOfLife) :
    g.undo.1.history.length = g.history.length - 1
      ∨ (g.history = [] ∧ g.undo.1 = g ∧ g.undo.2 = false) := by
  cases hcase : g.history.getLast? with
  | none =>
    right
    have hnil : g.history = [] := List.getLast?_eq_none_iff.mp hcase
    rw [undo_of_empty g hnil]
    exact ⟨hnil, rfl, rfl⟩
  | some s =>
    left
    rw [undo_of_getLast g hcase]
    simp

/-! Trivial field equations for the editing operations. -/

theorem toggle_generation (g : GameOfLife) (i j : Int) :
    (g.toggle_cell i j).generation = g.generation := by
  unfold GameOfLife.toggle_cell
  split_ifs <;> rfl

theorem toggle_history (g : GameOfLife) (i j : Int) :
    (g.toggle_cell i j).history = g.history := by
  unfold GameOfLife.toggle_cell
  split_ifs <;> rfl

theorem clear_generation (g : GameOfLife) : g.clear.generation = g.generation :=
  rfl

theorem clear_history (g : GameOfLife) : g.clear.history = g.history := rfl

theorem randomize_generation (g : GameOfLife) (r : Nat → Nat → Bool) :
    (g.randomize r).generation = g.generation := rfl

theorem randomize_history (g : GameOfLife) (r : Nat → Nat → Bool) :
    (g.randomize r).history = g.history := rfl

/-! Binary-valued grids are preserved by every operation. -/

theorem binary_init (width height : Nat) :
    BinaryGrid (GameOfLife.init width height).grid := by
  intro row hrow v hv
  have hrow2 := List.eq_of_mem_replicate hrow
  subst hrow2
  left
  exact List.eq_of_mem_replicate hv

theorem binary_update {g : GameOfLife} (hb : BinaryGrid g.grid) :
    BinaryGrid g.update.grid := by
  show BinaryGrid (g.grid.mapIdx fun r row => row.mapIdx fun c v =>
    if r < g.height ∧ c < g.width then
      let neighbors := g._count_neighbors r c
      if v ≠ 0 then
        if neighbors < 2 ∨ 3 < neighbors then 0 else v
      else if neighbors = 3 then 1 else v
    else v)
  apply binary_mapIdx hb
  intro r c v hv
  rcases hv with h | h <;> subst h <;> dsimp only <;> split_ifs <;> omega

theorem toggle_grid_in_range (g : GameOfLife) {i j : Int}
    (hrange : 0 ≤ i ∧ i < (g.height : Int) ∧ 0 ≤ j ∧ j < (g.width : Int)) :
    (g.toggle_cell i j).grid
      = setEntry g.grid i.toNat j.toNat
          (if cell g.grid i.toNat j.toNat ≠ 0 then 0 else 1) := by
  unfold GameOfLife.toggle_cell
  rw [if_pos hrange]

theorem toggle_out_of_range (g : GameOfLife) {i j : Int}
    (hrange : ¬(0 ≤ i ∧ i < (g.height : Int) ∧ 0 ≤ j ∧ j < (g.width : Int))) :
    g.toggle_cell i j = g := by
  unfold GameOfLife.toggle_cell
  rw [if_neg hrange]

theorem binary_toggle {g : GameOfLife} (hb : BinaryGrid g.grid) (i j : Int) :
    BinaryGrid (g.toggle_cell i j).grid := by
  by_cases hrange : 0 ≤ i ∧ i < (g.height : Int) ∧ 0 ≤ j ∧ j < (g.width : Int)
  · rw [toggle_grid_in_range g hrange]
    apply binary_setEntry hb
    split_ifs <;> simp
  · rw [toggle_out_of_range g hrange]
    exact hb

theorem allDead_clear (g : GameOfLife) : AllDead g.clear.grid := by
  intro row hrow v hv
  rcases List.mem_map.mp hrow with ⟨row0, _, hrow0⟩
  rw [← hrow0] at hv
  rcases List.mem_map.mp hv with ⟨v0, _, hv0⟩
  exact hv0.symm

theorem binary_clear (g : GameOfLife) : BinaryGrid g.clear.grid := by
  intro row hrow v hv
  exact Or.inl (allDead_clear g row hrow v hv)

theorem binary_randomize (g : GameOfLife) (r : Nat → Nat → Bool) :
    BinaryGrid (g.randomize r).grid := by
  intro row hrow v hv
  rcases List.mem_map.mp hrow with ⟨i, _, hrow0⟩
  rw [← hrow0] at hv
  rcases List.mem_map.mp hv with ⟨j, _, hv0⟩
  rw [← hv0]
  split_ifs <;> simp

theorem reachable_inv {g : GameOfLife} (h : Reachable g) : Inv g := by
  induction h with
  | init width height =>
    refine ⟨by simp [GameOfLife.init], by simp [GameOfLife.init], ?_, ?_⟩
    · exact binary_init width height
    · intro s hs
      simp [GameOfLife.init] at hs
  | update hr ih =>
    rename_i g0
    obtain ⟨hlen, hgen, hbin, hhist⟩ := ih
    refine ⟨?_, ?_, binary_update hbin, ?_⟩
    · rw [update_history_length]
      split_ifs <;> omega
    · rw [update_history_length, update_generation]
      split_ifs <;> push_cast <;> omega
    · intro s hs
      rcases update_history_mem g0 hs with hmem | heq
      · exact hhist s hmem
      · rw [heq]; exact hbin
  | toggle_cell i j hr ih =>
    rename_i g0
    obtain ⟨hlen, hgen, hbin, hhist⟩ := ih
    rw [Inv, toggle_generation, toggle_history]
    exact ⟨hlen, hgen, binary_toggle hbin i j, hhist⟩
  | clear hr ih =>
    rename_i g0
    obtain ⟨hlen, hgen, hbin, hhist⟩ := ih
    exact ⟨hlen, hgen, binary_clear g0, hhist⟩
  | randomize r hr ih =>
    rename_i g0
    obtain ⟨hlen, hgen, hbin, hhist⟩ := ih
    exact ⟨hlen, hgen, binary_randomize g0 r, hhist⟩
  | undo hr ih =>
    rename_i g0
    obtain ⟨hlen, hgen, hbin, hhist⟩ := ih
    cases hcase : g0.history.getLast? with
    | none =>
      rw [undo_of_empty g0 (List.getLast?_eq_none_iff.mp hcase)]
      exact ⟨hlen, hgen, hbin, hhist⟩
    | some s =>
      rw [undo_of_getLast g0 hcase]
      have hne : g0.history ≠ [] := by
        intro hnil
        rw [hnil] at hcase
        simp at hcase
      have hpos : 0 < g0.history.length := List.length_pos.mpr hne
      refine ⟨by simp; omega, ?_, ?_, ?_⟩
      · simp only [List.length_dropLast]
        push_cast [Nat.cast_sub hpos]
        omega
      · exact hhist s (List.mem_of_getLast?_eq_some hcase)
      · intro t ht
        exact hhist t (List.dropLast_subset _ ht)

theorem undo_succ (g : GameOfLife) (hne : g.history ≠ []) :
    g.undo.2 = true ∧ g.undo.1.history.length = g.history.length - 1 := by
  cases hcase : g.history.getLast? with
  | none => exact absurd (List.getLast?_eq_none_iff.mp hcase) hne
  | some s =>
    rw [undo_of_getLast g hcase]
    simp

theorem updateIter_history_length (g : GameOfLife) (hlen : g.history.length ≤ 50) :
    ∀ k : Nat, (updateIter k g).history.length = min (g.history.length + k) 50 := by
  intro k
  induction k with
  | zero =>
    show g.history.length = min (g.history.length + 0) 50
    rw [Nat.min_def]
    split_ifs <;> omega
  | succ k ih =>
    show (updateIter k g).update.history.length = min (g.history.length + (k + 1)) 50
    rw [update_history_length, ih, Nat.min_def, Nat.min_def]
    split_ifs <;> omega

theorem undoIter_history_length (g : GameOfLife) :
    ∀ k : Nat, k ≤ g.history.length →
      (undoIter k g).history.length = g.history.length - k := by
  intro k
  induction k with
  | zero => intro _; rfl
  | succ k ih =>
    intro hk
    have hk1 : k ≤ g.history.length := by omega
    have hlenk := ih hk1
    have hne : (undoIter k g).history ≠ [] := by
      intro hnil
      rw [hnil] at hlenk
      simp at hlenk
      omega
    show ((undoIter k g).undo.1).history.length = g.history.length - (k + 1)
    rw [(undo_succ (undoIter k g) hne).2, hlenk]
    omega

theorem undoIter_succeeds (g : GameOfLife) (k : Nat)
    (hk : k < g.history.length) : (undoIter k g).undo.2 = true := by
  have hlenk := undoIter_history_length g k (by omega)
  have hne : (undoIter k g).history ≠ [] := by
    intro hnil
    rw [hnil] at hlenk
    simp at hlenk
    omega
  exact (undo_succ (undoIter k g) hne).1

/-! Pointwise behaviour of `setEntry`. -/

theorem getD_eq_getElem {α : Type} {l : List α} {n : Nat} (d : α)
    (h : n < l.length) : l.getD n d = l[n] := by
  rw [List.getD_eq_getElem?_getD, List.getElem?_eq_getElem h]
  rfl

theorem getD_set_self {α : Type} (l : List α) {n : Nat} (a d : α)
    (hn : n < l.length) : (l.set n a).getD n d = a := by
  rw [List.getD_eq_getElem?_getD, List.getElem?_set_self (by simpa using hn)]
  rfl

theorem getD_set_ne {α : Type} (l : List α) {n k : Nat} (a d : α)
    (h : n ≠ k) : (l.set n a).getD k d = l.getD k d := by
  rw [List.getD_eq_getElem?_getD, List.getElem?_set_ne h,
    ← List.getD_eq_getElem?_getD]

theorem set_getD_self {α : Type} {l : List α} {n : Nat} (d : α)
    (hn : n < l.length) : l.set n (l.getD n d) = l := by
  apply List.ext_getElem?
  intro k
  by_cases hk : k = n
  · subst hk
    rw [List.getElem?_set_self (by simpa using hn), getD_eq_getElem d hn,
      List.getElem?_eq_getElem hn]
  · rw [List.getElem?_set_ne (by omega : n ≠ k)]

theorem cell_setEntry_self {grid : List (List Int)} {i j : Nat} (v : Int)
    (hi : i < grid.length) (hj : j < (grid.getD i []).length) :
    cell (setEntry grid i j v) i j = v := by
  unfold cell setEntry
  rw [getD_set_self grid _ [] hi, getD_set_self _ v 0 hj]

theorem cell_setEntry_ne {grid : List (List Int)} {i j : Nat} (v : Int)
    (a b : Nat) (hne : a ≠ i ∨ b ≠ j) :
    cell (setEntry grid i j v) a b = cell grid a b := by
  unfold cell setEntry
  by_cases ha : a = i
  · subst ha
    have hbj : b ≠ j := by tauto
    by_cases hi : a < grid.length
    · rw [getD_set_self grid _ [] hi, getD_set_ne _ v 0 (by omega : j ≠ b)]
    · rw [List.set_eq_of_length_le (le_of_not_lt hi)]
  · rw [getD_set_ne grid _ [] (by omega : i ≠ a)]

theorem setEntry_setEntry {grid : List (List Int)} {i j : Nat} (v w : Int) :
    setEntry (setEntry grid i j v) i j w = setEntry grid i j w := by
  unfold setEntry
  by_cases hi : i < grid.length
  · rw [getD_set_self grid _ [] hi, List.set_set, List.set_set]
  · have hle := le_of_not_lt hi
    simp only [List.set_eq_of_length_le hle]

theorem setEntry_cell_self {grid : List (List Int)} {i j : Nat} :
    setEntry grid i j (cell grid i j) = grid := by
  unfold setEntry cell
  by_cases hi : i < grid.length
  · by_cases hj : j < (grid.getD i []).length
    · rw [set_getD_self 0 hj, set_getD_self [] hi]
    · rw [List.set_eq_of_length_le (le_of_not_lt hj), set_getD_self [] hi]
  · rw [List.set_eq_of_length_le (le_of_not_lt hi)]

/-! Claim theorems. -/

/-- C1: one step computes each cell of the next generation solely from the
pre-update grid: an alive cell stays alive exactly on an old-grid neighbour
count of 2 or 3, a dead cell becomes alive exactly on a count of 3, and
otherwise the cell is dead; in particular a step of an all-dead grid is all
dead.  This holds for the clamp-boundary `GameOfLife.update` of
`game_of_life.py` and for the wrap-boundary `game_of_life` of
`GameOfLife.py`. -/
theorem C1_simultaneous_step :
    (∀ g : GameOfLife, GridShape g.grid g.height g.width →
      BinaryGrid g.grid → ∀ i j : Nat, i < g.height → j < g.width →
        cell g.update.grid i j
          = lifeRule (cell g.grid i j)
              (mooreCountClamp g.grid g.height g.width i j))
    ∧ (∀ g : GameOfLife, AllDead g.grid → AllDead g.update.grid)
    ∧ (∀ (n m : Nat) (grid : List (List Int)), GridShape grid n m →
        BinaryGrid grid → ∀ i j : Nat, i < n → j < m →
          cell (game_of_life n m grid) i j
            = lifeRule (cell grid i j) (mooreCountWrap grid n m i j))
    ∧ (∀ (n m : Nat) (grid : List (List Int)), AllDead grid →
        AllDead (game_of_life n m grid)) := by
  refine ⟨?_, ?_, ?_, ?_⟩
  · intro g hs hb i j hi hj
    rw [cell_update g hs hi hj, count_neighbors_eq_moore g hs hi hj]
    exact updateRule_eq_lifeRule _ _ (binary_cell hb i j)
  · intro g hd
    exact update_allDead g hd
  · intro n m grid hs hb i j hi hj
    rw [cell_game_of_life n m grid hs hi hj, gol_neighbors_eq_mooreWrap grid hi hj]
    exact golRule_eq_lifeRule _ _ (binary_cell hb i j)
  · intro n m grid hd
    exact game_of_life_allDead n m hd

/-- Witness for C1 at concrete inputs: the centre-top cell of a horizontal
blinker on a 3×3 clamp board, a step of an all-dead 2×2 board, and the same
blinker cell under the wrap variant. -/
theorem C1_simultaneous_step_witness :
    cell (GameOfLife.mk 3 3 [[0, 0, 0], [1, 1, 1], [0, 0, 0]] 0 []).update.grid 0 1
      = lifeRule (cell [[0, 0, 0], [1, 1, 1], [0, 0, 0]] 0 1)
          (mooreCountClamp [[0, 0, 0], [1, 1, 1], [0, 0, 0]] 3 3 0 1)
    ∧ AllDead (GameOfLife.init 2 2).update.grid
    ∧ cell (game_of_life 3 3 [[0, 0, 0], [1, 1, 1], [0, 0, 0]]) 0 1
        = lifeRule (cell [[0, 0, 0], [1, 1, 1], [0, 0, 0]] 0 1)
            (mooreCountWrap [[0, 0, 0], [1, 1, 1], [0, 0, 0]] 3 3 0 1) := by
  refine ⟨?_, ?_, ?_⟩
  · exact C1_simultaneous_step.1
      (GameOfLife.mk 3 3 [[0, 0, 0], [1, 1, 1], [0, 0, 0]] 0 [])
      (by constructor <;> decide) (by decide) 0 1 (by decide) (by decide)
  · exact C1_simultaneous_step.2.1 (GameOfLife.init 2 2) (by decide)
  · exact C1_simultaneous_step.2.2.1 3 3 [[0, 0, 0], [1, 1, 1], [0, 0, 0]]
      (by constructor <;> decide) (by decide) 0 1 (by decide) (by decide)

/-- C2: `undo` right after `update` returns `True`, restores the grid
bit-for-bit and decrements the generation counter back to its pre-step value;
`undo` on an empty history returns `False` and changes nothing, and on a
freshly constructed engine the generation counter is 0 and stays 0. -/
theorem C2_undo_after_step :
    (∀ g : GameOfLife,
        g.update.undo.2 = true
        ∧ g.update.undo.1.grid = g.grid
        ∧ g.update.undo.1.generation = g.update.generation - 1
        ∧ g.update.undo.1.generation = g.generation)
    ∧ (∀ g : GameOfLife, g.history = [] → g.undo = (g, false))
    ∧ (∀ width height : Nat,
        (GameOfLife.init width height).undo
          = (GameOfLife.init width height, false)
        ∧ (GameOfLife.init width height).generation = 0) := by
  refine ⟨?_, ?_, ?_⟩
  · intro g
    rw [undo_of_getLast g.update (update_history_getLast g)]
    refine ⟨rfl, rfl, rfl, ?_⟩
    rw [update_generation]
    ring
  · intro g h
    exact undo_of_empty g h
  · intro width height
    exact ⟨undo_of_empty _ rfl, rfl⟩

/-- Witness for C2 at a concrete input: stepping a 2×2 block and undoing
restores the board, and a fresh 1×1 engine refuses to undo. -/
theorem C2_undo_after_step_witness :
    (GameOfLife.mk 2 2 [[1, 1], [1, 1]] 0 []).update.undo.2 = true
    ∧ (GameOfLife.mk 2 2 [[1, 1], [1, 1]] 0 []).update.undo.1.grid
        = [[1, 1], [1, 1]]
    ∧ (GameOfLife.mk 2 2 [[1, 1], [1, 1]] 0 []).update.undo.1.generation = 0
    ∧ (GameOfLife.mk 1 1 [[0]] 5 []).undo = (GameOfLife.mk 1 1 [[0]] 5 [], false)
    ∧ (GameOfLife.init 1 1).undo = (GameOfLife.init 1 1, false) := by
  refine ⟨(C2_undo_after_step.1 (GameOfLife.mk 2 2 [[1, 1], [1, 1]] 0 [])).1,
    (C2_undo_after_step.1 (GameOfLife.mk 2 2 [[1, 1], [1, 1]] 0 [])).2.1,
    (C2_undo_after_step.1 (GameOfLife.mk 2 2 [[1, 1], [1, 1]] 0 [])).2.2.2,
    C2_undo_after_step.2.1 (GameOfLife.mk 1 1 [[0]] 5 []) rfl,
    (C2_undo_after_step.2.2 1 1).1⟩

/-- C3: the history buffer never holds more than 50 snapshots in any
reachable state; pushing onto a full buffer evicts the oldest entry first
(FIFO eviction) while keeping 50 entries; `undo` pops the most recently
pushed snapshot (LIFO); and after 51 consecutive steps from any state whose
history is within the bound, 50 consecutive undos succeed and exhaust the
history exactly, with the 51st undo reporting a no-op. -/
theorem C3_bounded_history :
    (∀ g : GameOfLife, Reachable g → g.history.length ≤ 50)
    ∧ (∀ g : GameOfLife, g.history.length = 50 →
        g.update.history = g.history.drop 1 ++ [g.grid]
        ∧ g.update.history.length = 50)
    ∧ (∀ (g : GameOfLife) (s : List (List Int)),
        g.history.getLast? = some s →
          g.undo.2 = true ∧ g.undo.1.grid = s
          ∧ g.undo.1.history = g.history.dropLast)
    ∧ (∀ g : GameOfLife, g.history.length ≤ 50 →
        (updateIter 51 g).history.length = 50
        ∧ (∀ k : Nat, k < 50 → (undoIter k (updateIter 51 g)).undo.2 = true)
        ∧ (undoIter 50 (updateIter 51 g)).history = []
        ∧ (undoIter 50 (updateIter 51 g)).undo.2 = false) := by
  refine ⟨?_, ?_, ?_, ?_⟩
  · intro g hr
    exact (reachable_inv hr).1
  · intro g hfull
    refine ⟨update_history_eviction g hfull, ?_⟩
    rw [update_history_length, hfull]
    simp
  · intro g s hlast
    rw [undo_of_getLast g hlast]
    exact ⟨rfl, rfl, rfl⟩
  · intro g hlen
    have h51 : (updateIter 51 g).history.length = 50 := by
      rw [updateIter_history_length g hlen 51, Nat.min_def]
      split_ifs <;> omega
    refine ⟨h51, ?_, ?_, ?_⟩
    · intro k hk
      exact undoIter_succeeds (updateIter 51 g) k (by omega)
    · have := undoIter_history_length (updateIter 51 g) 50 (by omega)
      rw [h51] at this
      simpa using List.length_eq_zero.mp (by omega)
    · have hempty : (undoIter 50 (updateIter 51 g)).history = [] := by
        have := undoIter_history_length (updateIter 51 g) 50 (by omega)
        rw [h51] at this
        exact List.length_eq_zero.mp (by omega)
      rw [undo_of_empty _ hempty]

/-- Witness for C3 at concrete inputs: the fresh 1×1 engine is reachable with
history within the bound, a concrete 50-deep history is evicted FIFO, and a
one-deep history pops LIFO. -/
theorem C3_bounded_history_witness :
    (GameOfLife.init 1 1).history.length ≤ 50
    ∧ ((GameOfLife.mk 1 1 [[0]] 1 (List.replicate 50 [[1]])).update.history
        = (List.replicate 50 [[1]]).drop 1 ++ [[[0]]])
    ∧ (GameOfLife.mk 1 1 [[0]] 1 [[[1]]]).undo.1.grid = [[1]]
    ∧ (updateIter 51 (GameOfLife.init 1 1)).history.length = 50
    ∧ (undoIter 50 (updateIter 51 (GameOfLife.init 1 1))).undo.2 = false := by
  refine ⟨C3_bounded_history.1 (GameOfLife.init 1 1) (Reachable.init 1 1),
    (C3_bounded_history.2.1 (GameOfLife.mk 1 1 [[0]] 1 (List.replicate 50 [[1]]))
      (by decide)).1,
    (C3_bounded_history.2.2.1 (GameOfLife.mk 1 1 [[0]] 1 [[[1]]]) [[1]]
      (by decide)).2.1,
    (C3_bounded_history.2.2.2 (GameOfLife.init 1 1) (by decide)).1,
    (C3_bounded_history.2.2.2 (GameOfLife.init 1 1) (by decide)).2.2.2⟩

/-- C9: the generation counter starts at 0, is incremented by exactly 1 on
each step and decremented by exactly 1 on each successful undo, a failed undo
leaves it unchanged, and in every reachable state it is at least the history
length, hence non-negative — so no sequence of engine operations drives it
below 0. -/
theorem C9_generation_counter :
    (∀ width height : Nat, (GameOfLife.init width height).generation = 0)
    ∧ (∀ g : GameOfLife, g.update.generation = g.generation + 1)
    ∧ (∀ g : GameOfLife,
        (g.undo.2 = true → g.undo.1.generation = g.generation - 1)
        ∧ (g.undo.2 = false → g.undo.1.generation = g.generation))
    ∧ (∀ (g : GameOfLife) (i j : Int),
        (g.toggle_cell i j).generation = g.generation
        ∧ g.clear.generation = g.generation
        ∧ ∀ r : Nat → Nat → Bool, (g.randomize r).generation = g.generation)
    ∧ (∀ g : GameOfLife, Reachable g →
        (g.history.length : Int) ≤ g.generation ∧ 0 ≤ g.generation)
    ∧ (∀ g : GameOfLife, Reachable g → g.undo.2 = true →
        0 ≤ g.undo.1.generation) := by
  refine ⟨fun _ _ => rfl, update_generation, ?_, ?_, ?_, ?_⟩
  · intro g
    cases hcase : g.history.getLast? with
    | none =>
      rw [undo_of_empty g (List.getLast?_eq_none_iff.mp hcase)]
      exact ⟨fun h => by simp at h, fun _ => rfl⟩
    | some s =>
      rw [undo_of_getLast g hcase]
      exact ⟨fun _ => rfl, fun h => by simp at h⟩
  · intro g i j
    exact ⟨toggle_generation g i j, clear_generation g,
      fun r => randomize_generation g r⟩
  · intro g hr
    have hinv := reachable_inv hr
    exact ⟨hinv.2.1, le_trans (by positivity) hinv.2.1⟩
  · intro g hr hsucc
    have hinv := reachable_inv hr
    cases hcase : g.history.getLast? with
    | none =>
      rw [undo_of_empty g (List.getLast?_eq_none_iff.mp hcase)] at hsucc
      simp at hsucc
    | some s =>
      have hne : g.history ≠ [] := by
        intro hnil
        rw [hnil] at hcase
        simp at hcase
      have hpos : 0 < g.history.length := List.length_pos.mpr hne
      rw [undo_of_getLast g hcase]
      have := hinv.2.1
      simp only
      omega

/-- Witness for C9 at concrete inputs: a fresh 2×3 engine, its step, its
undo, and its editing operations. -/
theorem C9_generation_counter_witness :
    (GameOfLife.init 2 3).generation = 0
    ∧ (GameOfLife.init 2 3).update.generation = 1
    ∧ ((GameOfLife.init 2 3).toggle_cell 0 0).generation = 0
    ∧ ((GameOfLife.init 2 3).history.length : Int)
        ≤ (GameOfLife.init 2 3).generation
    ∧ ((GameOfLife.init 2 3).update.undo.2 = true →
        0 ≤ (GameOfLife.init 2 3).update.undo.1.generation) := by
  refine ⟨C9_generation_counter.1 2 3,
    C9_generation_counter.2.1 (GameOfLife.init 2 3),
    (C9_generation_counter.2.2.2.1 (GameOfLife.init 2 3) 0 0).1,
    (C9_generation_counter.2.2.2.2.1 (GameOfLife.init 2 3)
      (Reachable.init 2 3)).1,
    C9_generation_counter.2.2.2.2.2 (GameOfLife.init 2 3).update
      (Reachable.update (Reachable.init 2 3))⟩

/-- C10: starting from the all-zero grid at construction, every reachable
engine state has a grid whose entries are all 0 or 1: `update`,
`toggle_cell`, `clear`, `randomize` and `undo` preserve binary cell
values. -/
theorem C10_binary_cells (g : GameOfLife) (hr : Reachable g) :
    BinaryGrid g.grid :=
  (reachable_inv hr).2.2.1

/-- Witness for C10: the state after a step, a toggle and an undo of a fresh
2×2 engine is reachable and binary. -/
theorem C10_binary_cells_witness :
    BinaryGrid ((GameOfLife.init 2 2).update.toggle_cell 0 1).undo.1.grid :=
  C10_binary_cells _
    (Reachable.undo (Reachable.toggle_cell 0 1
      (Reachable.update (Reachable.init 2 2))))

theorem toggle_toggle_grid {grid : List (List Int)} (hb : BinaryGrid grid)
    (I J : Nat) :
    setEntry (setEntry grid I J (if cell grid I J ≠ 0 then 0 else 1)) I J
      (if cell (setEntry grid I J (if cell grid I J ≠ 0 then 0 else 1)) I J ≠ 0
        then 0 else 1) = grid := by
  by_cases hi : I < grid.length
  · by_cases hj : J < (grid.getD I []).length
    · rw [cell_setEntry_self _ hi hj, setEntry_setEntry]
      rcases binary_cell hb I J with h0 | h1
      · rw [h0]
        norm_num
        rw [← h0]
        exact setEntry_cell_self
      · rw [h1]
        norm_num
        rw [← h1]
        exact setEntry_cell_self
    · have hid : ∀ v : Int, setEntry grid I J v = grid := by
        intro v
        unfold setEntry
        rw [List.set_eq_of_length_le (le_of_not_lt hj), set_getD_self [] hi]
      simp only [hid]
  · have hid : ∀ v : Int, setEntry grid I J v = grid := by
      intro v
      unfold setEntry
      rw [List.set_eq_of_length_le (le_of_not_lt hi)]
    simp only [hid]

/-- C4 counterexample: on a freshly constructed 2×2 engine, `toggle_cell`
with the out-of-range indices (5, 0) returns the engine state entirely
unchanged — a silent no-op with no error value of any kind, not an
OutOfBounds signal to the caller. -/
theorem C4_counterexample :
    (GameOfLife.init 2 2).toggle_cell 5 0 = GameOfLife.init 2 2 := by decide

/-- C4 (amended): `toggle_cell` with out-of-range indices is a silent no-op —
it signals nothing and leaves the whole engine state (in particular the grid)
unchanged; with in-range indices it flips exactly the addressed cell and
leaves every other cell unchanged, and on a binary grid toggling the same
cell twice restores the engine state bit-for-bit. -/
theorem C4_toggle_amended :
    (∀ (g : GameOfLife) (i j : Int),
        ¬(0 ≤ i ∧ i < (g.height : Int) ∧ 0 ≤ j ∧ j < (g.width : Int)) →
          g.toggle_cell i j = g)
    ∧ (∀ g : GameOfLife, GridShape g.grid g.height g.width →
        ∀ i j : Nat, i < g.height → j < g.width →
          cell (g.toggle_cell (i : Int) (j : Int)).grid i j
            = (if cell g.grid i j ≠ 0 then 0 else 1)
          ∧ ∀ a b : Nat, a ≠ i ∨ b ≠ j →
              cell (g.toggle_cell (i : Int) (j : Int)).grid a b
                = cell g.grid a b)
    ∧ (∀ g : GameOfLife, BinaryGrid g.grid →
        ∀ i j : Int, (g.toggle_cell i j).toggle_cell i j = g) := by
  refine ⟨?_, ?_, ?_⟩
  · intro g i j hrange
    exact toggle_out_of_range g hrange
  · intro g hs i j hi hj
    have hcond : 0 ≤ (i : Int) ∧ (i : Int) < (g.height : Int)
        ∧ 0 ≤ (j : Int) ∧ (j : Int) < (g.width : Int) :=
      ⟨by positivity, by exact_mod_cast hi, by positivity, by exact_mod_cast hj⟩
    have hgrid := toggle_grid_in_range g hcond
    simp only [Int.toNat_ofNat] at hgrid
    have hi2 : i < g.grid.length := by rw [hs.1]; exact hi
    have hj2 : j < (g.grid.getD i []).length := by
      rw [getD_row_eq hi2, hs.2 _ (List.getElem_mem hi2)]
      exact hj
    constructor
    · rw [hgrid, cell_setEntry_self _ hi2 hj2]
    · intro a b hne
      rw [hgrid, cell_setEntry_ne _ a b hne]
  · intro g hb i j
    by_cases hr : 0 ≤ i ∧ i < (g.height : Int) ∧ 0 ≤ j ∧ j < (g.width : Int)
    · have h1 : g.toggle_cell i j
          = { g with grid := (setEntry g.grid i.toNat j.toNat (if cell g.grid i.toNat j.toNat ≠ 0 then 0 else 1)) } := by
        unfold GameOfLife.toggle_cell
        rw [if_pos hr]
      rw [h1]
      unfold GameOfLife.toggle_cell
      rw [if_pos hr]
      dsimp only
      rw [toggle_toggle_grid hb i.toNat j.toNat]
    · rw [toggle_out_of_range g hr, toggle_out_of_range g hr]

/-- Witness for C4 (amended) at concrete inputs: out-of-range toggle on the
fresh 2×2 engine is the identity, the in-range toggle of (0, 1) on a 2×2
block flips exactly that cell, and a double toggle restores the engine. -/
theorem C4_toggle_amended_witness :
    (GameOfLife.init 2 2).toggle_cell (-1) 0 = GameOfLife.init 2 2
    ∧ cell ((GameOfLife.mk 2 2 [[1, 1], [1, 1]] 0 []).toggle_cell
        ((0 : Nat) : Int) ((1 : Nat) : Int)).grid 0 1 = 0
    ∧ cell ((GameOfLife.mk 2 2 [[1, 1], [1, 1]] 0 []).toggle_cell
        ((0 : Nat) : Int) ((1 : Nat) : Int)).grid 1 1 = 1
    ∧ ((GameOfLife.init 2 2).toggle_cell 1 1).toggle_cell 1 1
        = GameOfLife.init 2 2 := by
  refine ⟨C4_toggle_amended.1 (GameOfLife.init 2 2) (-1) 0 (by decide), ?_, ?_,
    C4_toggle_amended.2.2 (GameOfLife.init 2 2) (by decide) 1 1⟩
  · have h := (C4_toggle_amended.2.1 (GameOfLife.mk 2 2 [[1, 1], [1, 1]] 0 [])
      (by constructor <;> decide) 0 1 (by decide) (by decide)).1
    rw [h]
    decide
  · have h := (C4_toggle_amended.2.1 (GameOfLife.mk 2 2 [[1, 1], [1, 1]] 0 [])
      (by constructor <;> decide) 0 1 (by decide) (by decide)).2 1 1
      (by norm_num)
    rw [h]
    decide

/-- C5: for every in-range cell the neighbour count is an integer in [0, 8]
and never includes the cell itself: the clamp-policy `_count_neighbors`
equals the sum of those of the 8 Moore neighbours that lie inside the grid
(out-of-grid neighbours count as dead), and the wrap-policy neighbour
expression of `game_of_life` equals the sum over the 8 Moore offsets taken
modulo the grid dimensions. -/
theorem C5_neighbor_count :
    (∀ g : GameOfLife, GridShape g.grid g.height g.width →
      BinaryGrid g.grid → ∀ i j : Nat, i < g.height → j < g.width →
        g._count_neighbors i j = mooreCountClamp g.grid g.height g.width i j
        ∧ 0 ≤ g._count_neighbors i j ∧ g._count_neighbors i j ≤ 8)
    ∧ (∀ (grid : List (List Int)) (n m : Nat), BinaryGrid grid →
        ∀ i j : Nat, i < n → j < m →
          gol_neighbors grid n m i j = mooreCountWrap grid n m i j
          ∧ 0 ≤ gol_neighbors grid n m i j
          ∧ gol_neighbors grid n m i j ≤ 8) := by
  constructor
  · intro g hs hb i j hi hj
    have heq := count_neighbors_eq_moore g hs hi hj
    have hbd := mooreCountClamp_bounds g.height g.width i j hb
    rw [heq]
    exact ⟨rfl, hbd.1, hbd.2⟩
  · intro grid n m hb i j hi hj
    have heq := gol_neighbors_eq_mooreWrap grid hi hj
    have hbd := mooreCountWrap_bounds n m i j hb
    rw [heq]
    exact ⟨rfl, hbd.1, hbd.2⟩

/-- Witness for C5 at a concrete input: the centre cell of a 3×3 blinker has
clamp count 3, and the corner cell has wrap count 3. -/
theorem C5_neighbor_count_witness :
    ((GameOfLife.mk 3 3 [[0, 0, 0], [1, 1, 1], [0, 0, 0]] 0 [])._count_neighbors 1 1
        = mooreCountClamp [[0, 0, 0], [1, 1, 1], [0, 0, 0]] 3 3 1 1
      ∧ 0 ≤ (GameOfLife.mk 3 3 [[0, 0, 0], [1, 1, 1], [0, 0, 0]] 0 [])._count_neighbors 1 1
      ∧ (GameOfLife.mk 3 3 [[0, 0, 0], [1, 1, 1], [0, 0, 0]] 0 [])._count_neighbors 1 1 ≤ 8)
    ∧ (gol_neighbors [[0, 0, 0], [1, 1, 1], [0, 0, 0]] 3 3 0 0
        = mooreCountWrap [[0, 0, 0], [1, 1, 1], [0, 0, 0]] 3 3 0 0
      ∧ 0 ≤ gol_neighbors [[0, 0, 0], [1, 1, 1], [0, 0, 0]] 3 3 0 0
      ∧ gol_neighbors [[0, 0, 0], [1, 1, 1], [0, 0, 0]] 3 3 0 0 ≤ 8) :=
  ⟨C5_neighbor_count.1 (GameOfLife.mk 3 3 [[0, 0, 0], [1, 1, 1], [0, 0, 0]] 0 [])
      (by constructor <;> decide) (by decide) 1 1 (by decide) (by decide),
    C5_neighbor_count.2 [[0, 0, 0], [1, 1, 1], [0, 0, 0]] 3 3 (by decide)
      0 0 (by decide) (by decide)⟩

/-! Pointwise behaviour of `overlay`, for C6. -/

theorem overlay_length (grid pat : List (List Int)) (i0 j0 : Nat) :
    (overlay grid pat i0 j0).length = grid.length := by
  unfold overlay
  simp

theorem overlay_row_length (grid pat : List (List Int)) (i0 j0 a : Nat) :
    ((overlay grid pat i0 j0).getD a []).length = (grid.getD a []).length := by
  by_cases ha : a < grid.length
  · have ha2 : a < (overlay grid pat i0 j0).length := by
      rw [overlay_length]
      exact ha
    rw [getD_row_eq ha2, getD_row_eq ha]
    unfold overlay
    simp
  · have hle := le_of_not_lt ha
    rw [List.getD_eq_getElem?_getD, List.getElem?_eq_none
      (by rw [overlay_length]; exact hle)]
    rw [List.getD_eq_getElem?_getD, List.getElem?_eq_none hle]

theorem cell_overlay (grid pat : List (List Int)) {i0 j0 a b : Nat}
    (ha : a < grid.length) (hb : b < (grid.getD a []).length) :
    cell (overlay grid pat i0 j0) a b
      = if i0 ≤ a ∧ a < i0 + pat.length
            ∧ j0 ≤ b ∧ b < j0 + (pat.getD (a - i0) []).length then
          cell pat (a - i0) (b - j0)
        else cell grid a b := by
  unfold overlay
  rw [cell_mapIdx grid _ ha (by rw [← getD_row_eq ha]; exact hb)]

theorem cell_overlay_out (grid pat : List (List Int)) {i0 j0 a b : Nat}
    (hout : ¬(a < grid.length ∧ b < (grid.getD a []).length)) :
    cell (overlay grid pat i0 j0) a b = cell grid a b := by
  have hrl := overlay_row_length grid pat i0 j0 a
  by_cases ha : a < grid.length
  · have hble : (grid.getD a []).length ≤ b := by
      rcases Nat.lt_or_ge b (grid.getD a []).length with hlt | hge
      · exact absurd ⟨ha, hlt⟩ hout
      · exact hge
    unfold cell
    rw [List.getD_eq_getElem?_getD ((overlay grid pat i0 j0).getD a []) b 0,
      List.getElem?_eq_none (by rw [hrl]; exact hble),
      List.getD_eq_getElem?_getD (grid.getD a []) b 0,
      List.getElem?_eq_none hble]
  · have hle := le_of_not_lt ha
    unfold cell
    rw [List.getD_eq_getElem?_getD (overlay grid pat i0 j0) a [],
      List.getElem?_eq_none (by rw [overlay_length]; exact hle),
      List.getD_eq_getElem?_getD grid a [], List.getElem?_eq_none hle]

/-- C6 counterexample: stamping a 3×3 all-ones pattern onto a 2×2 grid clamps
the origin to (0, 0), but the slice assignment then fails with a numpy
broadcast ValueError rather than best-effort clipping the pattern onto the
grid, so placement of an oversized pattern is an error, contrary to the
claim. -/
theorem C6_counterexample :
    apply_pattern (GameOfLife.init 2 2)
        (Pattern.mk "threeByThree" [[1, 1, 1], [1, 1, 1], [1, 1, 1]] "") 0 0
      = Except.error
          "ValueError: could not broadcast pattern into clipped slice" := rfl

/-- C6 (amended): when the pattern fits inside the grid, placement clamps the
target to `0 ≤ i0 ≤ height - ph` and `0 ≤ j0 ≤ width - pw`, never raises,
fully overwrites the destination window with the pattern values (not ORed),
leaves every other cell unchanged, and the placed pattern lies fully inside
the grid; when the pattern exceeds the grid in some dimension, the clamped
origin degenerates to 0 but the slice assignment reports a broadcast error
instead of best-effort clipping. -/
theorem C6_place_amended :
    (∀ (g : GameOfLife) (p : Pattern) (ti tj : Int),
      GridShape g.grid g.height g.width →
      GridShape p.pattern p.pattern.length (p.pattern.headD []).length →
      p.pattern.length ≤ g.height →
      (p.pattern.headD []).length ≤ g.width →
      clampOrigin ti g.height p.pattern.length + p.pattern.length ≤ g.height
      ∧ clampOrigin tj g.width (p.pattern.headD []).length
          + (p.pattern.headD []).length ≤ g.width
      ∧ apply_pattern g p ti tj
          = Except.ok { g with grid := (overlay g.grid p.pattern (clampOrigin ti g.height p.pattern.length) (clampOrigin tj g.width (p.pattern.headD []).length)) }
      ∧ (∀ r c : Nat, r < p.pattern.length → c < (p.pattern.headD []).length →
          cell (overlay g.grid p.pattern
              (clampOrigin ti g.height p.pattern.length)
              (clampOrigin tj g.width (p.pattern.headD []).length))
            (clampOrigin ti g.height p.pattern.length + r)
            (clampOrigin tj g.width (p.pattern.headD []).length + c)
            = cell p.pattern r c)
      ∧ (∀ a b : Nat,
          (a < clampOrigin ti g.height p.pattern.length
            ∨ clampOrigin ti g.height p.pattern.length + p.pattern.length ≤ a
            ∨ b < clampOrigin tj g.width (p.pattern.headD []).length
            ∨ clampOrigin tj g.width (p.pattern.headD []).length
                + (p.pattern.headD []).length ≤ b) →
          cell (overlay g.grid p.pattern
              (clampOrigin ti g.height p.pattern.length)
              (clampOrigin tj g.width (p.pattern.headD []).length)) a b
            = cell g.grid a b))
    ∧ (∀ (g : GameOfLife) (p : Pattern) (ti tj : Int),
        g.height < p.pattern.length ∨ g.width < (p.pattern.headD []).length →
          apply_pattern g p ti tj
            = Except.error
                "ValueError: could not broadcast pattern into clipped slice") := by
  constructor
  · intro g p ti tj hs hps hph hpw
    have hi0 : (clampOrigin ti g.height p.pattern.length : Int)
        = max 0 (min ti ((g.height : Int) - p.pattern.length)) :=
      Int.toNat_of_nonneg (le_max_left _ _)
    have hj0 : (clampOrigin tj g.width (p.pattern.headD []).length : Int)
        = max 0 (min tj ((g.width : Int) - (p.pattern.headD []).length)) :=
      Int.toNat_of_nonneg (le_max_left _ _)
    have hmaxi : max 0 (min ti ((g.height : Int) - p.pattern.length))
        ≤ (g.height : Int) - p.pattern.length :=
      max_le (by omega) (min_le_right _ _)
    have hmaxj : max 0 (min tj ((g.width : Int) - (p.pattern.headD []).length))
        ≤ (g.width : Int) - (p.pattern.headD []).length :=
      max_le (by omega) (min_le_right _ _)
    have hib : clampOrigin ti g.height p.pattern.length + p.pattern.length
        ≤ g.height := by omega
    have hjb : clampOrigin tj g.width (p.pattern.headD []).length
        + (p.pattern.headD []).length ≤ g.width := by omega
    refine ⟨hib, hjb, ?_, ?_, ?_⟩
    · have hcond1 : min g.height (clampOrigin ti g.height p.pattern.length
            + p.pattern.length) - clampOrigin ti g.height p.pattern.length
          = p.pattern.length := by
        rw [Nat.min_eq_right hib]
        omega
      have hcond2 : min g.width (clampOrigin tj g.width (p.pattern.headD []).length
            + (p.pattern.headD []).length)
            - clampOrigin tj g.width (p.pattern.headD []).length
          = (p.pattern.headD []).length := by
        rw [Nat.min_eq_right hjb]
        omega
      simp only [apply_pattern]
      rw [if_pos ⟨hcond1, hcond2⟩]
      rfl
    · intro r c hr hc
      have ha : clampOrigin ti g.height p.pattern.length + r < g.grid.length := by
        rw [hs.1]
        omega
      have hrowlen : (g.grid.getD (clampOrigin ti g.height p.pattern.length + r) []).length = g.width := by
        rw [getD_row_eq ha]
        exact hs.2 _ (List.getElem_mem ha)
      have hb : clampOrigin tj g.width (p.pattern.headD []).length + c
          < (g.grid.getD (clampOrigin ti g.height p.pattern.length + r) []).length := by
        rw [hrowlen]
        omega
      rw [cell_overlay g.grid p.pattern ha hb]
      have hsub : clampOrigin ti g.height p.pattern.length + r
          - clampOrigin ti g.height p.pattern.length = r := by omega
      have hsub2 : clampOrigin tj g.width (p.pattern.headD []).length + c
          - clampOrigin tj g.width (p.pattern.headD []).length = c := by omega
      rw [if_pos]
      · rw [hsub, hsub2]
      · refine ⟨by omega, by omega, by omega, ?_⟩
        rw [hsub]
        have hrow : r < p.pattern.length := hr
        have hplen : (p.pattern.getD r []).length = (p.pattern.headD []).length := by
          have hr2 : r < p.pattern.length := hr
          rw [getD_row_eq (by omega)]
          exact hps.2 _ (List.getElem_mem (by omega))
        rw [hplen]
        omega
    · intro a b hdisj
      by_cases hin : a < g.grid.length ∧ b < (g.grid.getD a []).length
      · rw [cell_overlay g.grid p.pattern hin.1 hin.2, if_neg]
        intro hcond
        obtain ⟨hc1, hc2, hc3, hc4⟩ := hcond
        have hrlen : (p.pattern.getD (a - clampOrigin ti g.height p.pattern.length) []).length
            = (p.pattern.headD []).length := by
          have hlt : a - clampOrigin ti g.height p.pattern.length
              < p.pattern.length := by omega
          rw [getD_row_eq (by omega)]
          exact hps.2 _ (List.getElem_mem (by omega))
        rw [hrlen] at hc4
        omega
      · exact cell_overlay_out g.grid p.pattern hin
  · intro g p ti tj hbig
    simp only [apply_pattern]
    rw [if_neg]
    intro hcond
    obtain ⟨h1, h2⟩ := hcond
    rcases hbig with hb1 | hb2
    · have hm : min g.height ((max 0 (min ti ((g.height : Int) - p.pattern.length))).toNat + p.pattern.length) ≤ g.height :=
        Nat.min_le_left _ _
      omega
    · have hm : min g.width ((max 0 (min tj ((g.width : Int) - (p.pattern.headD []).length))).toNat + (p.pattern.headD []).length) ≤ g.width :=
        Nat.min_le_left _ _
      omega

/-- Witness for C6 (amended) at concrete inputs: a 2×2 block aimed far past
the corner of a 4×4 board is clamped and placed at (2, 2), and an oversized
3×3 pattern on a 2×2 board reports the broadcast error. -/
theorem C6_place_amended_witness :
    apply_pattern (GameOfLife.init 4 4) (Pattern.mk "block" [[1, 1], [1, 1]] "") 9 9
      = Except.ok { GameOfLife.init 4 4 with grid := (overlay (GameOfLife.init 4 4).grid [[1, 1], [1, 1]] (clampOrigin 9 4 2) (clampOrigin 9 4 2)) }
    ∧ apply_pattern (GameOfLife.init 2 2)
        (Pattern.mk "threeByThree" [[1, 1, 1], [1, 1, 1], [1, 1, 1]] "") 0 0
      = Except.error
          "ValueError: could not broadcast pattern into clipped slice" :=
  ⟨(C6_place_amended.1 (GameOfLife.init 4 4)
      (Pattern.mk "block" [[1, 1], [1, 1]] "") 9 9
      (by constructor <;> decide) (by constructor <;> decide)
      (by decide) (by decide)).2.2.1,
    C6_place_amended.2 (GameOfLife.init 2 2)
      (Pattern.mk "threeByThree" [[1, 1, 1], [1, 1, 1], [1, 1, 1]] "") 0 0
      (by decide)⟩

/-- C7 counterexample: loading a saved matrix into an engine that has stepped
once replaces the grid but leaves the generation counter at 1 and the
history non-empty — the derived state is not reset to match the freshly
loaded grid, contrary to the claim. -/
theorem C7_counterexample :
    load_state (GameOfLife.init 1 1).update (Except.ok [[1]])
      = Except.ok (GameOfLife.mk 1 1 [[1]] 1 [[[0]]])
    ∧ (GameOfLife.mk 1 1 [[1]] 1 [[[0]]]).generation ≠ 0
    ∧ (GameOfLife.mk 1 1 [[1]] 1 [[[0]]]).history ≠ [] := by
  refine ⟨rfl, by decide, by decide⟩

/-- C7 (amended): loading a saved state replaces the current grid with the
deserialised matrix and resets nothing else: the generation counter, the
history, and the stored width and height are all left exactly as they
were. -/
theorem C7_load_amended :
    ∀ (g : GameOfLife) (m : List (List Int)),
      load_state g (Except.ok m) = Except.ok { g with grid := m }
      ∧ ({ g with grid := m } : GameOfLife).generation = g.generation
      ∧ ({ g with grid := m } : GameOfLife).history = g.history
      ∧ ({ g with grid := m } : GameOfLife).width = g.width
      ∧ ({ g with grid := m } : GameOfLife).height = g.height :=
  fun _ _ => ⟨rfl, rfl, rfl, rfl, rfl⟩

/-- C8 counterexample: the engine accepts a deserialised matrix that is
neither rectangular nor binary: no MalformedState is signalled and the
in-memory grid is replaced by the malformed data instead of remaining
unchanged. -/
theorem C8_counterexample :
    ¬RectangularBinary [[2], [3, 4]]
    ∧ load_state (GameOfLife.init 1 1) (Except.ok [[2], [3, 4]])
        = Except.ok (GameOfLife.mk 1 1 [[2], [3, 4]] 0 [])
    ∧ (GameOfLife.mk 1 1 [[2], [3, 4]] 0 []).grid ≠ (GameOfLife.init 1 1).grid := by
  refine ⟨by decide, rfl, by decide⟩

/-- C8 (amended): load validates nothing — any successfully deserialised
matrix, rectangular binary or not, replaces the grid; only a
deserialisation failure is signalled, and on that failure no part of the
engine state is modified (the assignment never runs), so failing loads are
all-or-nothing. -/
theorem C8_load_amended :
    ∀ g : GameOfLife,
      (∀ m : List (List Int),
        load_state g (Except.ok m) = Except.ok { g with grid := m })
      ∧ (∀ e : String, load_state g (Except.error e) = Except.error e) :=
  fun _ => ⟨fun _ => rfl, fun _ => rfl⟩

end GoL
